import Mathlib

/-!
Shallow embedding of `src/log_csvv2.py` (the `convert_to_wigle_csv`
converter) and verification of its specification claims.

Machine reals (Python floats) are modelled by `ℚ`; file positions
(`infile.tell()`) and the input size (`os.path.getsize`) are oracle
parameters, since they are environment inputs to the function.
-/

/-- One parsed CSV record: an ordered list of string fields. -/
abbrev Row := List String

/-- The fixed header record written first (source line 73). -/
def headerRow : Row :=
  ["MAC", "SSID", "AuthMode", "FirstSeen", "Channel", "RSSI",
   "CurrentLatitude", "CurrentLongitude"]

/-- The loop body's filter/projection (source lines 80-84): skip records of
fewer than 8 fields, otherwise keep the first 8 fields. -/
def processRows : List Row → List Row
  | [] => []
  | row :: rest =>
      if row.length < 8 then processRows rest
      else row.take 8 :: processRows rest

/-- Records of the output file: header followed by the processed rows. -/
def convertRecords (rows : List Row) : List Row :=
  headerRow :: processRows rows

/-! ## Path derivation (source lines 56-57), following CPython `posixpath` -/

/-- Index of the last occurrence of `c`, accumulator form. -/
def lastIdxAux (c : Char) : List Char → ℕ → Option ℕ → Option ℕ
  | [], _, acc => acc
  | x :: xs, i, acc => lastIdxAux c xs (i + 1) (if x = c then some i else acc)

/-- Index of the last occurrence of `c` in `l` (CPython `str.rfind`). -/
def lastIdxOf (l : List Char) (c : Char) : Option ℕ :=
  lastIdxAux c l 0 none

/-- `posixpath.basename`: everything after the last slash. -/
def basename (p : String) : String :=
  match lastIdxOf p.toList '/' with
  | none => p
  | some i => String.mk (p.toList.drop (i + 1))

/-- Remove trailing slashes (CPython `str.rstrip('/')`). -/
def rstripSlash (l : List Char) : List Char :=
  (l.reverse.dropWhile (fun c => c = '/')).reverse

/-- `posixpath.dirname`: the prefix up to the last slash, with trailing
slashes stripped unless the prefix is all slashes. -/
def dirname (p : String) : String :=
  match lastIdxOf p.toList '/' with
  | none => ""
  | some i =>
      let head := p.toList.take (i + 1)
      if head.all (fun c => c = '/') then String.mk head
      else String.mk (rstripSlash head)

/-- `posixpath.splitext(p)[0]`: drop the final extension; a dot that only
has dots between it and the start of the file name does not count. -/
def splitextRoot (p : String) : String :=
  let l := p.toList
  match lastIdxOf l '.', lastIdxOf l '/' with
  | none, _ => p
  | some dotI, sepOpt =>
      let fnameStart := match sepOpt with | none => 0 | some s => s + 1
      if fnameStart ≤ dotI then
        if ((l.drop fnameStart).take (dotI - fnameStart)).any (fun c => c ≠ '.') then
          String.mk (l.take dotI)
        else p
      else p

/-- `posixpath.join` for two components: `b` if it is absolute, else `a`
and `b` glued with a slash unless `a` is empty or already ends in one. -/
def pathJoin (a b : String) : String :=
  if b.toList.head? = some '/' then b
  else if a = "" then a ++ b
  else if a.toList.getLast? = some '/' then a ++ b
  else a ++ "/" ++ b

/-- The output path derivation of source lines 56-57:
`os.path.join(dirname(p), splitext(basename(p))[0] + ".wigle.csv")`. -/
def output_file_of (file_path : String) : String :=
  pathJoin (dirname file_path) (splitextRoot (basename file_path) ++ ".wigle.csv")

/-! ## Progress state machine (source lines 75-98) -/

/-- The loop-local mutable state: `processed`, `last_printed_pct`, plus the
observables we track (data records written, percentages emitted). -/
structure ProgState where
  processed : ℕ
  last_printed_pct : ℚ
  written : List Row
  emitted : List ℚ
deriving Repr, DecidableEq

/-- `update_every = 500` (source line 78). -/
def update_every : ℕ := 500

/-- Initial loop state (source lines 75-76). -/
def initState : ProgState :=
  { processed := 0, last_printed_pct := -1, written := [], emitted := [] }

/-- The percentage computation of source lines 88-93: `0.0` unless a
positive total size is known, else `min(100, tell/total*100)`. -/
def computePct (total_bytes : Option ℕ) (tellPos : ℕ) : ℚ :=
  match total_bytes with
  | some t => if 0 < t then min 100 ((tellPos : ℚ) / (t : ℚ) * 100) else 0
  | none => 0

/-- Write one valid record and bump the counter (source lines 83-85). -/
def writeRow (st : ProgState) (row : Row) : ProgState :=
  { st with written := st.written ++ [row.take 8], processed := st.processed + 1 }

/-- The progress checkpoint of source lines 87-98: every `update_every`
rows, compute the percentage and redraw when it moved by at least 0.1
or nothing was printed yet (`last_printed_pct < 0`). -/
def maybeEmit (total_bytes : Option ℕ) (st : ProgState) (tellPos : ℕ) : ProgState :=
  if st.processed % update_every = 0 then
    if 1/10 ≤ |computePct total_bytes tellPos - st.last_printed_pct| ∨
        st.last_printed_pct < 0 then
      { st with emitted := st.emitted ++ [computePct total_bytes tellPos],
                last_printed_pct := computePct total_bytes tellPos }
    else st
  else st

/-- One iteration of the reader loop (source lines 80-98). -/
def convStep (total_bytes : Option ℕ) (st : ProgState) (row : Row) (tellPos : ℕ) :
    ProgState :=
  if row.length < 8 then st
  else maybeEmit total_bytes (writeRow st row) tellPos

/-- Run the loop over the rows; `tell i` is the stream position the text
reader reports while handling row `i`. -/
def convRunAux (total_bytes : Option ℕ) (tell : ℕ → ℕ) :
    List Row → ℕ → ProgState → ProgState
  | [], _, st => st
  | row :: rest, i, st =>
      convRunAux total_bytes tell rest (i + 1) (convStep total_bytes st row (tell i))

/-- A whole conversion loop from the initial state. -/
def convRun (total_bytes : Option ℕ) (tell : ℕ → ℕ) (rows : List Row) : ProgState :=
  convRunAux total_bytes tell rows 0 initState

/-- The final percentage of source lines 101-107: 100 unless a positive
total size is known. -/
def finalPct (total_bytes : Option ℕ) (tellEnd : ℕ) : ℚ :=
  match total_bytes with
  | some t => if 0 < t then min 100 ((tellEnd : ℚ) / (t : ℚ) * 100) else 100
  | none => 100

/-- The percentage the last executed redraw printed, `-1` if none ran. -/
def lastEmittedPct (st : ProgState) : ℚ :=
  st.emitted.getLast?.getD (-1)

/-! ## Output serialization (csv.writer, default dialect, `newline=""`) -/

/-- A field needs quoting when it contains the delimiter, the quote
character or a line break (QUOTE_MINIMAL). -/
def needsQuoting (s : String) : Bool :=
  s.toList.any (fun c => c = ',' || c = '"' || c = '\r' || c = '\n')

/-- Double every quote character (csv doublequote behaviour). -/
def escapeQuotes : List Char → List Char
  | [] => []
  | c :: cs => if c = '"' then '"' :: '"' :: escapeQuotes cs else c :: escapeQuotes cs

/-- Serialize one field under QUOTE_MINIMAL. -/
def serializeField (s : String) : String :=
  if needsQuoting s then "\"" ++ String.mk (escapeQuotes s.toList) ++ "\"" else s

/-- Serialize one record with `\r\n` terminator; a lone empty field is
quoted, as csv.writer does. -/
def serializeRecord (r : Row) : String :=
  match r with
  | [f] => (if f = "" then "\"\"" else serializeField f) ++ "\r\n"
  | fields => String.intercalate "," (fields.map serializeField) ++ "\r\n"

/-- The bytes (as text) of an output file holding the given records. -/
def csvSerialize (recs : List Row) : String :=
  String.join (recs.map serializeRecord)

/-! ## Input decoding (`errors="ignore"`) and csv.reader parsing -/

/-- Is `b` a UTF-8 continuation byte. -/
def isCont (b : ℕ) : Bool := 128 ≤ b && b ≤ 191

/-- Admissible first continuation byte after a 3-byte lead (excludes
overlong forms and surrogates, as CPython does). -/
def cont3fst (b0 b1 : ℕ) : Bool :=
  if b0 = 224 then 160 ≤ b1 && b1 ≤ 191
  else if b0 = 237 then 128 ≤ b1 && b1 ≤ 159
  else isCont b1

/-- Admissible first continuation byte after a 4-byte lead. -/
def cont4fst (b0 b1 : ℕ) : Bool :=
  if b0 = 240 then 144 ≤ b1 && b1 ≤ 191
  else if b0 = 244 then 128 ≤ b1 && b1 ≤ 143
  else isCont b1

/-- UTF-8 decoding with `errors="ignore"` (source line 68): undecodable
bytes are dropped and decoding continues at the first offending byte. -/
def utf8DecodeIgnore : List ℕ → List Char
  | [] => []
  | b :: rest =>
      if b < 128 then Char.ofNat b :: utf8DecodeIgnore rest
      else if 194 ≤ b && b ≤ 223 then
        match rest with
        | [] => []
        | b1 :: r2 =>
            if isCont b1 then
              Char.ofNat ((b - 192) * 64 + (b1 - 128)) :: utf8DecodeIgnore r2
            else utf8DecodeIgnore (b1 :: r2)
      else if 224 ≤ b && b ≤ 239 then
        match rest with
        | [] => []
        | b1 :: r2 =>
            if cont3fst b b1 then
              match r2 with
              | [] => []
              | b2 :: r3 =>
                  if isCont b2 then
                    Char.ofNat ((b - 224) * 4096 + (b1 - 128) * 64 + (b2 - 128)) ::
                      utf8DecodeIgnore r3
                  else utf8DecodeIgnore (b2 :: r3)
            else utf8DecodeIgnore (b1 :: r2)
      else if 240 ≤ b && b ≤ 244 then
        match rest with
        | [] => []
        | b1 :: r2 =>
            if cont4fst b b1 then
              match r2 with
              | [] => []
              | b2 :: r3 =>
                  if isCont b2 then
                    match r3 with
                    | [] => []
                    | b3 :: r4 =>
                        if isCont b3 then
                          Char.ofNat ((b - 240) * 262144 + (b1 - 128) * 4096 +
                              (b2 - 128) * 64 + (b3 - 128)) :: utf8DecodeIgnore r4
                        else utf8DecodeIgnore (b3 :: r4)
                  else utf8DecodeIgnore (b2 :: r3)
            else utf8DecodeIgnore (b1 :: r2)
      else utf8DecodeIgnore rest

/-- Universal-newline translation of text-mode reading: `\r\n` and `\r`
become `\n`. -/
def normalizeNewlines : List Char → List Char
  | [] => []
  | '\r' :: '\n' :: rest => '\n' :: normalizeNewlines rest
  | '\r' :: rest => '\n' :: normalizeNewlines rest
  | c :: rest => c :: normalizeNewlines rest

/-- csv.reader parse states (default dialect, non-strict). -/
inductive CsvState where
  | startRecord
  | startField
  | inField
  | inQuoted
  | quoteInQuoted
deriving Repr, DecidableEq

/-- csv.reader's field size limit (`csv.field_size_limit()` default). -/
def field_size_limit : ℕ := 131072

/-- The diagnostic the csv module raises for an oversized field. -/
def fieldLimitMsg : String := "field larger than field limit (131072)"

/-- The diagnostic the csv module raises for a NUL character in a line. -/
def nulMsg : String := "line contains NUL"

/-- `parse_add_char`: append to the current (reversed) field buffer unless
the field is already at the size limit, in which case the reader raises. -/
def addFieldChar (field : List Char) (c : Char) : Except String (List Char) :=
  if field_size_limit ≤ field.length then .error fieldLimitMsg
  else .ok (c :: field)

/-- One `parse_process_char` step of csv.reader (default dialect,
non-strict) over newline-normalized text: `field` and `record` are
reversed accumulators, the fourth component is a record completed by this
character. `\r` never reaches the parser (universal newlines), so the
"new-line character seen in unquoted field" path is unreachable here. -/
def csvStep (s : CsvState) (field : List Char) (record : List String) (c : Char) :
    Except String (CsvState × List Char × List String × Option Row) :=
  match s with
  | .startRecord =>
      if c = '\n' then .ok (.startRecord, [], [], some [])
      else if c = '"' then .ok (.inQuoted, [], [], none)
      else if c = ',' then .ok (.startField, [], [""], none)
      else
        match addFieldChar [] c with
        | .error e => .error e
        | .ok f => .ok (.inField, f, [], none)
  | .startField =>
      if c = '\n' then .ok (.startRecord, [], [], some (("" :: record).reverse))
      else if c = '"' then .ok (.inQuoted, field, record, none)
      else if c = ',' then .ok (.startField, [], "" :: record, none)
      else
        match addFieldChar field c with
        | .error e => .error e
        | .ok f => .ok (.inField, f, record, none)
  | .inField =>
      if c = '\n' then
        .ok (.startRecord, [], [], some ((String.mk field.reverse :: record).reverse))
      else if c = ',' then
        .ok (.startField, [], String.mk field.reverse :: record, none)
      else
        match addFieldChar field c with
        | .error e => .error e
        | .ok f => .ok (.inField, f, record, none)
  | .inQuoted =>
      if c = '"' then .ok (.quoteInQuoted, field, record, none)
      else
        match addFieldChar field c with
        | .error e => .error e
        | .ok f => .ok (.inQuoted, f, record, none)
  | .quoteInQuoted =>
      if c = '"' then
        match addFieldChar field '"' with
        | .error e => .error e
        | .ok f => .ok (.inQuoted, f, record, none)
      else if c = ',' then
        .ok (.startField, [], String.mk field.reverse :: record, none)
      else if c = '\n' then
        .ok (.startRecord, [], [], some ((String.mk field.reverse :: record).reverse))
      else
        match addFieldChar field c with
        | .error e => .error e
        | .ok f => .ok (.inField, f, record, none)

/-- Feed the characters of one physical line through the reader state
machine, collecting any record it completes (at most one, at the line's
terminating newline). -/
def feedLine : List Char → CsvState → List Char → List String →
    Except String (CsvState × List Char × List String × List Row)
  | [], s, field, record => .ok (s, field, record, [])
  | c :: rest, s, field, record =>
      match csvStep s field record c with
      | .error e => .error e
      | .ok (s1, f1, r1, opt) =>
          match feedLine rest s1 f1 r1 with
          | .error e => .error e
          | .ok (s2, f2, r2, recs) => .ok (s2, f2, r2, opt.toList ++ recs)

/-- The end-of-line sentinel step of `Reader_iternext`: a line that did not
end in a newline (only the final line can) still completes its pending
record, except inside a quoted field, which continues on the next line. -/
def eolStep (s : CsvState) (field : List Char) (record : List String) :
    CsvState × List Char × List String × Option Row :=
  match s with
  | .startRecord => (.startRecord, field, record, none)
  | .startField => (.startRecord, [], [], some (("" :: record).reverse))
  | .inField => (.startRecord, [], [], some ((String.mk field.reverse :: record).reverse))
  | .inQuoted => (.inQuoted, field, record, none)
  | .quoteInQuoted =>
      (.startRecord, [], [], some ((String.mk field.reverse :: record).reverse))

/-- Split text into physical lines as file iteration yields them: each
line keeps its `\n`; a final fragment without one is still a line. -/
def splitLinesAux : List Char → List Char → List (List Char)
  | [], acc => if acc.isEmpty then [] else [acc.reverse]
  | c :: rest, acc =>
      if c = '\n' then (acc.reverse ++ ['\n']) :: splitLinesAux rest []
      else splitLinesAux rest (c :: acc)

/-- Physical lines of a newline-normalized text. -/
def splitLines (cs : List Char) : List (List Char) :=
  splitLinesAux cs []

/-- The csv.reader iteration: fetch each line, raise on a NUL in it,
otherwise parse it; at end of input a pending quoted field still yields a
final record. Returns the records yielded before any error, and the
error's message if one was raised. -/
def readCsvAux : List (List Char) → CsvState → List Char → List String → List Row →
    List Row × Option String
  | [], s, field, record, acc =>
      if field ≠ [] ∨ s = .inQuoted then
        (acc ++ [(String.mk field.reverse :: record).reverse], none)
      else (acc, none)
  | line :: rest, s, field, record, acc =>
      if line.any (fun c => c = Char.ofNat 0) then (acc, some nulMsg)
      else
        match feedLine line s field record with
        | .error e => (acc, some e)
        | .ok (s1, f1, r1, recs) =>
            let (s2, f2, r2, opt) := eolStep s1 f1 r1
            readCsvAux rest s2 f2 r2 (acc ++ recs ++ opt.toList)

/-- Read all records of a normalized text, csv.reader style: the yielded
records together with the reader error that cut the run short, if any. -/
def readCsv (cs : List Char) : List Row × Option String :=
  readCsvAux (splitLines cs) .startRecord [] [] []

/-! ## The whole call, abstracting I/O into an outcome oracle -/

/-- How the I/O of one `convert_to_wigle_csv` call goes: everything
succeeds, an open fails, or a read/write raises after `k` records. -/
inductive RunOutcome where
  | ok (rows : List Row)
  | openInputFail (msg : String)
  | openOutputFail (msg : String)
  | midStream (rows : List Row) (k : ℕ) (msg : String)

/-- The observable result of one call: the returned value, the records of
the output file on disk (if it was created), the final summary data
(row count and final percentage), and console lines. -/
structure ConvResult where
  result : Option String
  outFile : Option (List Row)
  summary : Option (ℕ × ℚ)
  console : List String
deriving Repr, DecidableEq

/-- The "Starting conversion" banner of source line 66 (structure only). -/
def startLine (file_path output_file : String) : String :=
  "Starting conversion: input " ++ file_path ++ " output " ++ output_file

/-- The diagnostic of source line 114. -/
def errLine (msg : String) : String :=
  "❌ Error processing file: " ++ msg

/-- `convert_to_wigle_csv` (source lines 51-117): the body runs inside one
`try/except Exception`; any I/O failure prints the diagnostic and returns
`None`, leaving whatever was already written on disk. -/
def convert_to_wigle_csv (file_path : String) (total_bytes : Option ℕ)
    (tell : ℕ → ℕ) (outcome : RunOutcome) : ConvResult :=
  let output_file := output_file_of file_path
  match outcome with
  | .ok rows =>
      let st := convRun total_bytes tell rows
      { result := some output_file,
        outFile := some (headerRow :: st.written),
        summary := some (st.processed, finalPct total_bytes (tell rows.length)),
        console := [startLine file_path output_file] }
  | .openInputFail msg =>
      { result := none, outFile := none, summary := none,
        console := [startLine file_path output_file, errLine msg] }
  | .openOutputFail msg =>
      { result := none, outFile := none, summary := none,
        console := [startLine file_path output_file, errLine msg] }
  | .midStream rows k msg =>
      let st := convRun total_bytes tell (rows.take k)
      { result := none,
        outFile := some (headerRow :: st.written),
        summary := none,
        console := [startLine file_path output_file, errLine msg] }

/-- The failure message an outcome carries, if it is a failure. -/
def outcomeMsg : RunOutcome → Option String
  | .ok _ => none
  | .openInputFail m => some m
  | .openOutputFail m => some m
  | .midStream _ _ m => some m

/-- A run whose input is raw bytes: decode with `errors="ignore"`, apply
universal newlines, then iterate csv.reader. A reader error mid-iteration
is an exception after the already-yielded records were written, i.e. a
mid-stream failure of the surrounding `try/except`. -/
def convertFromBytes (file_path : String) (total_bytes : Option ℕ)
    (tell : ℕ → ℕ) (bs : List ℕ) : ConvResult :=
  match readCsv (normalizeNewlines (utf8DecodeIgnore bs)) with
  | (rows, none) => convert_to_wigle_csv file_path total_bytes tell (.ok rows)
  | (rows, some msg) =>
      convert_to_wigle_csv file_path total_bytes tell
        (.midStream rows rows.length msg)

/-! ## Helper lemmas -/

theorem processRows_eq (rows : List Row) :
    processRows rows =
      (rows.filter (fun r => decide (8 ≤ r.length))).map (fun r => r.take 8) := by
  induction rows with
  | nil => rfl
  | cons r rest ih =>
      by_cases h : r.length < 8
      · have h8 : ¬ (8 ≤ r.length) := by omega
        simp [processRows, h, List.filter_cons, h8, ih]
      · have h8 : 8 ≤ r.length := by omega
        simp [processRows, h, List.filter_cons, h8, ih]

theorem maybeEmit_written (tb : Option ℕ) (st : ProgState) (tp : ℕ) :
    (maybeEmit tb st tp).written = st.written := by
  unfold maybeEmit; split_ifs <;> rfl

theorem maybeEmit_processed (tb : Option ℕ) (st : ProgState) (tp : ℕ) :
    (maybeEmit tb st tp).processed = st.processed := by
  unfold maybeEmit; split_ifs <;> rfl

theorem convStep_written (tb : Option ℕ) (st : ProgState) (row : Row) (tp : ℕ) :
    (convStep tb st row tp).written =
      st.written ++ (if row.length < 8 then [] else [row.take 8]) := by
  unfold convStep
  split_ifs with h
  · simp
  · rw [maybeEmit_written]; rfl

theorem convStep_processed (tb : Option ℕ) (st : ProgState) (row : Row) (tp : ℕ) :
    (convStep tb st row tp).processed =
      st.processed + (if row.length < 8 then 0 else 1) := by
  unfold convStep
  split_ifs with h
  · simp
  · rw [maybeEmit_processed]; rfl

theorem convRunAux_written (tb : Option ℕ) (tell : ℕ → ℕ) :
    ∀ (rows : List Row) (i : ℕ) (st : ProgState),
      (convRunAux tb tell rows i st).written = st.written ++ processRows rows := by
  intro rows
  induction rows with
  | nil => intro i st; simp [convRunAux, processRows]
  | cons r rest ih =>
      intro i st
      simp only [convRunAux]
      rw [ih, convStep_written]
      by_cases h : r.length < 8 <;> simp [processRows, h]

theorem convRun_written (tb : Option ℕ) (tell : ℕ → ℕ) (rows : List Row) :
    (convRun tb tell rows).written = processRows rows := by
  simpa [convRun, initState] using convRunAux_written tb tell rows 0 initState

theorem convRunAux_pw (tb : Option ℕ) (tell : ℕ → ℕ) :
    ∀ (rows : List Row) (i : ℕ) (st : ProgState),
      st.processed = st.written.length →
      (convRunAux tb tell rows i st).processed =
        (convRunAux tb tell rows i st).written.length := by
  intro rows
  induction rows with
  | nil => intro i st h; simpa [convRunAux] using h
  | cons r rest ih =>
      intro i st h
      simp only [convRunAux]
      apply ih
      rw [convStep_processed, convStep_written]
      by_cases hr : r.length < 8 <;> simp [hr, h]

theorem convRun_pw (tb : Option ℕ) (tell : ℕ → ℕ) (rows : List Row) :
    (convRun tb tell rows).processed = (convRun tb tell rows).written.length := by
  exact convRunAux_pw tb tell rows 0 initState (by simp [initState])

theorem computePct_nonneg (tb : Option ℕ) (tp : ℕ) : 0 ≤ computePct tb tp := by
  unfold computePct
  cases tb with
  | none => exact le_refl 0
  | some t =>
      dsimp only
      split_ifs with h
      · exact le_min (by norm_num) (by positivity)
      · exact le_refl 0

/-- Reachability invariant of the loop state: `last_printed_pct` is exactly
the last emitted percentage (`-1` if none), and emitted percentages are
nonnegative. -/
def ProgInv (st : ProgState) : Prop :=
  st.last_printed_pct = lastEmittedPct st ∧ ∀ q ∈ st.emitted, 0 ≤ q

theorem progInv_init : ProgInv initState := by
  constructor
  · simp [initState, lastEmittedPct]
  · intro q hq; simp [initState] at hq

theorem progInv_writeRow (st : ProgState) (row : Row) (h : ProgInv st) :
    ProgInv (writeRow st row) := by
  simpa [writeRow, ProgInv, lastEmittedPct] using h

theorem progInv_maybeEmit (tb : Option ℕ) (st : ProgState) (tp : ℕ)
    (h : ProgInv st) : ProgInv (maybeEmit tb st tp) := by
  unfold maybeEmit
  split_ifs with h1 h2
  · constructor
    · simp [lastEmittedPct]
    · intro q hq
      rcases List.mem_append.mp hq with hl | hr
      · exact h.2 q hl
      · simp at hr
        subst hr
        exact computePct_nonneg tb tp
  · exact h
  · exact h

theorem progInv_convStep (tb : Option ℕ) (st : ProgState) (row : Row) (tp : ℕ)
    (h : ProgInv st) : ProgInv (convStep tb st row tp) := by
  unfold convStep
  split_ifs with hr
  · exact h
  · exact progInv_maybeEmit tb (writeRow st row) tp (progInv_writeRow st row h)

theorem progInv_convRunAux (tb : Option ℕ) (tell : ℕ → ℕ) :
    ∀ (rows : List Row) (i : ℕ) (st : ProgState),
      ProgInv st → ProgInv (convRunAux tb tell rows i st) := by
  intro rows
  induction rows with
  | nil => intro i st h; exact h
  | cons r rest ih =>
      intro i st h
      exact ih (i + 1) _ (progInv_convStep tb st r (tell i) h)

theorem progInv_convRun (tb : Option ℕ) (tell : ℕ → ℕ) (rows : List Row) :
    ProgInv (convRun tb tell rows) :=
  progInv_convRunAux tb tell rows 0 initState progInv_init

theorem lastEmittedPct_mem (st : ProgState) (h : st.emitted ≠ []) :
    lastEmittedPct st ∈ st.emitted := by
  unfold lastEmittedPct
  cases hl : st.emitted.getLast? with
  | none => exact absurd (List.getLast?_eq_none_iff.mp hl) h
  | some a =>
      simp only [Option.getD_some]
      exact List.mem_of_mem_getLast? hl

/-- The redraw guard of source line 96 is equivalent, on reachable states,
to "nothing was emitted yet, or the new percentage moved by at least
one tenth of a point from the last emitted one". -/
theorem emitCond_iff (st : ProgState) (h : ProgInv st) (pct : ℚ) :
    (1/10 ≤ |pct - st.last_printed_pct| ∨ st.last_printed_pct < 0)
      ↔ (st.emitted = [] ∨ 1/10 ≤ |pct - lastEmittedPct st|) := by
  rcases h with ⟨hl, hpos⟩
  by_cases he : st.emitted = []
  · apply iff_of_true
    · right
      rw [hl]
      unfold lastEmittedPct
      rw [he]
      norm_num
    · left; exact he
  · have hmem : lastEmittedPct st ∈ st.emitted := lastEmittedPct_mem st he
    have h0 : 0 ≤ lastEmittedPct st := hpos _ hmem
    rw [hl]
    constructor
    · rintro (hd | hd)
      · right; exact hd
      · exact absurd hd (not_lt.mpr h0)
    · rintro (hd | hd)
      · exact absurd hd he
      · left; exact hd

/-! ## Claim theorems -/

/-- C1: for parsed input of N records of which M have at least 8 fields,
the output is exactly the header record followed by M data records; with
no records or only short records the output is just the header, and the
run still succeeds (no error is raised for short records). -/
theorem claim_c1 (fp : String) (tb : Option ℕ) (tell : ℕ → ℕ) (rows : List Row) :
    convertRecords rows = headerRow :: processRows rows ∧
    (convertRecords rows).length =
      1 + (rows.filter (fun r => decide (8 ≤ r.length))).length ∧
    ((∀ r ∈ rows, r.length < 8) → convertRecords rows = [headerRow]) ∧
    (convert_to_wigle_csv fp tb tell (.ok rows)).outFile = some (convertRecords rows) ∧
    (convert_to_wigle_csv fp tb tell (.ok rows)).result = some (output_file_of fp) := by
  refine ⟨rfl, ?_, ?_, ?_, rfl⟩
  · simp [convertRecords, processRows_eq, Nat.add_comm]
  · intro hall
    have hnil : rows.filter (fun r => decide (8 ≤ r.length)) = [] :=
      List.filter_eq_nil_iff.mpr
        (by intro a ha; simpa using Nat.not_le.mpr (hall a ha))
    simp [convertRecords, processRows_eq, hnil]
  · simp [convert_to_wigle_csv, convRun_written, convertRecords]

/-- Witness for C1 at a concrete all-malformed input. -/
theorem claim_c1_witness :
    convertRecords [["a"], ["b", "c"]] = [headerRow] ∧
    (convert_to_wigle_csv "in.log" none (fun _ => 0)
        (.ok [["a"], ["b", "c"]])).result = some "in.wigle.csv" := by
  have h := claim_c1 "in.log" none (fun _ => 0) [["a"], ["b", "c"]]
  refine ⟨h.2.2.1 (by decide), ?_⟩
  rw [h.2.2.2.2]
  decide

/-- C2: each valid record contributes the record of exactly its first 8
fields, in order and unmodified, extra fields dropped, and the data
records keep the input order. -/
theorem claim_c2 (rows : List Row) :
    processRows rows =
      (rows.filter (fun r => decide (8 ≤ r.length))).map (fun r => r.take 8) ∧
    (∀ r : Row, 8 ≤ r.length → (r.take 8).length = 8) ∧
    (∀ r : Row, 8 ≤ r.length → ∀ j, j < 8 → (r.take 8)[j]? = r[j]?) ∧
    (∀ r : Row, 8 ≤ r.length → processRows [r] = [r.take 8]) := by
  refine ⟨processRows_eq rows, ?_, ?_, ?_⟩
  · intro r h8
    simp [List.length_take, Nat.min_eq_left h8]
  · intro r h8 j hj
    exact List.getElem?_take_of_lt hj
  · intro r h8
    have hn : ¬ r.length < 8 := Nat.not_lt.mpr h8
    simp [processRows, hn]

/-- Witness for C2 at a concrete 9-field record. -/
theorem claim_c2_witness :
    (List.take 8 (List.replicate 9 "x")).length = 8 ∧
    (List.take 8 (List.replicate 9 "x"))[3]? = (List.replicate 9 "x")[3]? ∧
    processRows [List.replicate 9 "x"] = [List.take 8 (List.replicate 9 "x")] := by
  have h := claim_c2 [List.replicate 9 "x"]
  exact ⟨h.2.1 _ (by decide), h.2.2.1 _ (by decide) 3 (by decide),
    h.2.2.2 _ (by decide)⟩

/-- C3: the first record of the output is always the fixed header of the 8
WiGLE field names. -/
theorem claim_c3 (fp : String) (tb : Option ℕ) (tell : ℕ → ℕ) (rows : List Row) :
    (convertRecords rows).head? = some headerRow ∧
    headerRow = ["MAC", "SSID", "AuthMode", "FirstSeen", "Channel", "RSSI",
      "CurrentLatitude", "CurrentLongitude"] ∧
    headerRow.length = 8 ∧
    (convert_to_wigle_csv fp tb tell (.ok rows)).outFile =
      some (convertRecords rows) := by
  refine ⟨rfl, rfl, rfl, ?_⟩
  simp [convert_to_wigle_csv, convRun_written, convertRecords]

/-- C4: the output path is the input's directory joined with the input's
base name, final extension stripped, plus `.wigle.csv`; in particular the
two example inputs of the claim map as stated. -/
theorem claim_c4 (p : String) (tb : Option ℕ) (tell : ℕ → ℕ) (rows : List Row) :
    output_file_of p =
      pathJoin (dirname p) (splitextRoot (basename p) ++ ".wigle.csv") ∧
    (convert_to_wigle_csv p tb tell (.ok rows)).result = some (output_file_of p) ∧
    output_file_of "capture.log" = "capture.wigle.csv" ∧
    output_file_of "data.tar.csv" = "data.tar.wigle.csv" ∧
    output_file_of "/logs/run/capture.log" = "/logs/run/capture.wigle.csv" := by
  exact ⟨rfl, rfl, by decide, by decide, by decide⟩

/-- C8: a mid-stream failure returns `None` but leaves the header and all
data rows written so far on disk, untouched. -/
theorem claim_c8 (fp : String) (tb : Option ℕ) (tell : ℕ → ℕ) (rows : List Row)
    (k : ℕ) (msg : String) :
    (convert_to_wigle_csv fp tb tell (.midStream rows k msg)).result = none ∧
    (convert_to_wigle_csv fp tb tell (.midStream rows k msg)).outFile =
      some (headerRow :: processRows (rows.take k)) ∧
    errLine msg ∈ (convert_to_wigle_csv fp tb tell (.midStream rows k msg)).console := by
  refine ⟨rfl, ?_, ?_⟩
  · simp [convert_to_wigle_csv, convRun_written]
  · simp [convert_to_wigle_csv]

/-- C9: the output file content (records and serialized bytes) is a
function of the parsed input alone: two runs on the same input agree even
under different size/position oracles. -/
theorem claim_c9 (fp : String) (rows : List Row) (tb1 tb2 : Option ℕ)
    (t1 t2 : ℕ → ℕ) :
    (convert_to_wigle_csv fp tb1 t1 (.ok rows)).outFile =
      (convert_to_wigle_csv fp tb2 t2 (.ok rows)).outFile ∧
    ((convert_to_wigle_csv fp tb1 t1 (.ok rows)).outFile).map csvSerialize =
      ((convert_to_wigle_csv fp tb2 t2 (.ok rows)).outFile).map csvSerialize ∧
    (convert_to_wigle_csv fp tb1 t1 (.ok rows)).outFile =
      some (convertRecords rows) ∧
    (convert_to_wigle_csv fp tb1 t1 (.ok rows)).result =
      (convert_to_wigle_csv fp tb2 t2 (.ok rows)).result := by
  have h1 : (convert_to_wigle_csv fp tb1 t1 (.ok rows)).outFile =
      some (convertRecords rows) := by
    simp [convert_to_wigle_csv, convRun_written, convertRecords]
  have h2 : (convert_to_wigle_csv fp tb2 t2 (.ok rows)).outFile =
      some (convertRecords rows) := by
    simp [convert_to_wigle_csv, convRun_written, convertRecords]
  exact ⟨h1.trans h2.symm, by rw [h1, h2], h1, rfl⟩

/-- C10: the `processed` counter equals the number of data records written
at every point of the run, starting at 0, incremented exactly on writes,
and the success-path summary reports exactly this count. -/
theorem claim_c10 (fp : String) (tb : Option ℕ) (tell : ℕ → ℕ) (rows : List Row) :
    (convRun tb tell rows).processed = (convRun tb tell rows).written.length ∧
    (∀ k, (convRun tb tell (rows.take k)).processed =
        (convRun tb tell (rows.take k)).written.length) ∧
    (∀ (st : ProgState) (row : Row) (tp : ℕ),
        (convStep tb st row tp).processed =
          st.processed + (if row.length < 8 then 0 else 1)) ∧
    (∀ (st : ProgState) (row : Row) (tp : ℕ),
        (convStep tb st row tp).written.length =
          st.written.length + (if row.length < 8 then 0 else 1)) ∧
    initState.processed = 0 ∧
    (convert_to_wigle_csv fp tb tell (.ok rows)).summary =
      some ((convRun tb tell rows).processed, finalPct tb (tell rows.length)) ∧
    (convert_to_wigle_csv fp tb tell (.ok rows)).outFile =
      some (headerRow :: (convRun tb tell rows).written) := by
  refine ⟨convRun_pw tb tell rows, fun k => convRun_pw tb tell _, ?_, ?_, rfl, rfl, rfl⟩
  · intro st row tp
    exact convStep_processed tb st row tp
  · intro st row tp
    rw [convStep_written]
    by_cases h : row.length < 8 <;> simp [h]

/-- C5: on any reachable loop state, a progress update is considered
exactly when the row counter just reached a multiple of 500; the
percentage is bytes-consumed over total size times 100 capped at 100 (or
0 with an unavailable or zero size); the update is emitted iff nothing
was emitted yet or the percentage moved by at least 0.1 points from the
last emitted one; short rows never touch the progress state. -/
theorem claim_c5 (tb : Option ℕ) (tell : ℕ → ℕ) (rows : List Row) (row : Row)
    (tp : ℕ) (hv : 8 ≤ row.length) :
    ((convStep tb (convRun tb tell rows) row tp).processed =
      (convRun tb tell rows).processed + 1) ∧
    (((convRun tb tell rows).processed + 1) % 500 ≠ 0 →
      (convStep tb (convRun tb tell rows) row tp).emitted =
        (convRun tb tell rows).emitted ∧
      (convStep tb (convRun tb tell rows) row tp).last_printed_pct =
        (convRun tb tell rows).last_printed_pct) ∧
    (((convRun tb tell rows).processed + 1) % 500 = 0 →
      ((convStep tb (convRun tb tell rows) row tp).emitted =
          (convRun tb tell rows).emitted ++ [computePct tb tp] ↔
        ((convRun tb tell rows).emitted = [] ∨
          1/10 ≤ |computePct tb tp - lastEmittedPct (convRun tb tell rows)|)) ∧
      (¬ ((convRun tb tell rows).emitted = [] ∨
          1/10 ≤ |computePct tb tp - lastEmittedPct (convRun tb tell rows)|) →
        (convStep tb (convRun tb tell rows) row tp).emitted =
          (convRun tb tell rows).emitted)) ∧
    (∀ (r2 : Row) (tp2 : ℕ), r2.length < 8 →
      convStep tb (convRun tb tell rows) r2 tp2 = convRun tb tell rows) ∧
    (∀ t : ℕ, tb = some t → 0 < t →
      computePct tb tp = min 100 ((tp : ℚ) / (t : ℚ) * 100)) ∧
    (tb = none ∨ tb = some 0 → computePct tb tp = 0) ∧
    0 ≤ computePct tb tp := by
  set st := convRun tb tell rows with hst
  have hinv : ProgInv st := progInv_convRun tb tell rows
  have hnlt : ¬ row.length < 8 := Nat.not_lt.mpr hv
  have hstep : convStep tb st row tp = maybeEmit tb (writeRow st row) tp := by
    simp [convStep, hnlt]
  refine ⟨?_, ?_, ?_, ?_, ?_, ?_, ?_⟩
  · rw [convStep_processed]
    simp [hnlt]
  · intro hmod
    rw [hstep]
    unfold maybeEmit
    have hne : ¬ ((writeRow st row).processed % update_every = 0) := by
      simpa [writeRow, update_every] using hmod
    rw [if_neg hne]
    exact ⟨rfl, rfl⟩
  · intro hmod
    rw [hstep]
    unfold maybeEmit
    have hm : (writeRow st row).processed % update_every = 0 := by
      simpa [writeRow, update_every] using hmod
    rw [if_pos hm]
    have hlast : (writeRow st row).last_printed_pct = st.last_printed_pct := rfl
    by_cases hc : 1/10 ≤ |computePct tb tp - (writeRow st row).last_printed_pct| ∨
        (writeRow st row).last_printed_pct < 0
    · rw [if_pos hc]
      have hclaim : st.emitted = [] ∨
          1/10 ≤ |computePct tb tp - lastEmittedPct st| := by
        rw [hlast] at hc
        exact (emitCond_iff st hinv (computePct tb tp)).mp hc
      exact ⟨iff_of_true rfl hclaim, fun hn => absurd hclaim hn⟩
    · rw [if_neg hc]
      have hnclaim : ¬ (st.emitted = [] ∨
          1/10 ≤ |computePct tb tp - lastEmittedPct st|) := by
        rw [hlast] at hc
        exact fun hcl => hc ((emitCond_iff st hinv (computePct tb tp)).mpr hcl)
      refine ⟨iff_of_false ?_ hnclaim, fun _ => rfl⟩
      intro habs
      have hlen := congrArg List.length habs
      simp [writeRow] at hlen
  · intro r2 tp2 h2
    simp [convStep, h2]
  · intro t ht hpos
    subst ht
    simp [computePct, hpos]
  · rintro (h | h) <;> subst h <;> simp [computePct]
  · exact computePct_nonneg tb tp

/-- Witness for C5: first row of a run, between checkpoints, with a known
size of 10 bytes and position 5. -/
theorem claim_c5_witness :
    (convStep (some 10) (convRun (some 10) (fun _ => 0) []) (List.replicate 8 "x")
      5).processed = 1 ∧
    computePct (some 10) 5 = 50 := by
  have h := claim_c5 (some 10) (fun _ => 0) [] (List.replicate 8 "x") 5 (by decide)
  constructor
  · rw [h.1]
    rfl
  · have h6 := h.2.2.2.2.1 10 rfl (by norm_num)
    rw [h6]
    norm_num

/-- C6: every I/O failure (open input, create output, mid-stream) makes
the call return `None` and print a diagnostic carrying the cause; it is
never re-raised to the caller. -/
theorem claim_c6 (fp : String) (tb : Option ℕ) (tell : ℕ → ℕ)
    (outcome : RunOutcome) (msg : String) (h : outcomeMsg outcome = some msg) :
    (convert_to_wigle_csv fp tb tell outcome).result = none ∧
    errLine msg ∈ (convert_to_wigle_csv fp tb tell outcome).console ∧
    errLine msg = "❌ Error processing file: " ++ msg := by
  cases outcome with
  | ok rows => simp [outcomeMsg] at h
  | openInputFail m =>
      simp only [outcomeMsg, Option.some.injEq] at h
      subst h
      exact ⟨rfl, by simp [convert_to_wigle_csv], rfl⟩
  | openOutputFail m =>
      simp only [outcomeMsg, Option.some.injEq] at h
      subst h
      exact ⟨rfl, by simp [convert_to_wigle_csv], rfl⟩
  | midStream rows k m =>
      simp only [outcomeMsg, Option.some.injEq] at h
      subst h
      exact ⟨rfl, by simp [convert_to_wigle_csv], rfl⟩

/-- Witness for C6 at a concrete failed input open. -/
theorem claim_c6_witness :
    (convert_to_wigle_csv "in.log" none (fun _ => 0)
      (.openInputFail "boom")).result = none ∧
    errLine "boom" ∈ (convert_to_wigle_csv "in.log" none (fun _ => 0)
      (.openInputFail "boom")).console := by
  have h := claim_c6 "in.log" none (fun _ => 0) (.openInputFail "boom") "boom" rfl
  exact ⟨h.1, h.2.1⟩

/-- C7 counterexample: `[255, 0]` is not entirely valid text, yet the run
returns a failed result: the invalid byte 255 is dropped, but the decoded
NUL character makes csv.reader raise, so the call returns `None`. -/
theorem claim_c7_counterexample :
    (convertFromBytes "x.log" none (fun _ => 0) [255, 0]).result = none ∧
    (convertFromBytes "x.log" none (fun _ => 0) [255, 0]).outFile =
      some [headerRow] ∧
    errLine nulMsg ∈
      (convertFromBytes "x.log" none (fun _ => 0) [255, 0]).console := by
  refine ⟨rfl, rfl, ?_⟩
  simp [convertFromBytes, convert_to_wigle_csv]
  decide

/-- C7 (amended): decoding itself is permissive and never fails the run —
undecodable bytes are dropped and the outcome depends only on the decoded
text; whenever csv.reader accepts that text the run succeeds over the
remaining records. A run can still fail on the decoded text through the
reader's own error paths (a line containing NUL, an oversized field), in
which case the failure keeps the records yielded before it. -/
theorem claim_c7 (fp : String) (tb : Option ℕ) (tell : ℕ → ℕ) (bs : List ℕ) :
    (∀ bs2 : List ℕ, utf8DecodeIgnore bs2 = utf8DecodeIgnore bs →
      convertFromBytes fp tb tell bs2 = convertFromBytes fp tb tell bs) ∧
    (∀ rows : List Row,
      readCsv (normalizeNewlines (utf8DecodeIgnore bs)) = (rows, none) →
      (convertFromBytes fp tb tell bs).result = some (output_file_of fp) ∧
      (convertFromBytes fp tb tell bs).outFile =
        some (headerRow :: processRows rows)) ∧
    (∀ (rows : List Row) (msg : String),
      readCsv (normalizeNewlines (utf8DecodeIgnore bs)) = (rows, some msg) →
      (convertFromBytes fp tb tell bs).result = none ∧
      (convertFromBytes fp tb tell bs).outFile =
        some (headerRow :: processRows rows) ∧
      errLine msg ∈ (convertFromBytes fp tb tell bs).console) ∧
    utf8DecodeIgnore [97, 255, 98] = ['a', 'b'] ∧
    (convertFromBytes "x.log" none (fun _ => 0)
        [97, 44, 98, 44, 99, 44, 100, 44, 101, 44, 102, 44, 103, 44, 104, 255,
          10]).result = some "x.wigle.csv" ∧
    (convertFromBytes "x.log" none (fun _ => 0)
        [97, 44, 98, 44, 99, 44, 100, 44, 101, 44, 102, 44, 103, 44, 104, 255,
          10]).outFile =
      some [headerRow, ["a", "b", "c", "d", "e", "f", "g", "h"]] := by
  refine ⟨?_, ?_, ?_, by decide, ?_, ?_⟩
  · intro bs2 h
    simp only [convertFromBytes, h]
  · intro rows h
    simp only [convertFromBytes, h]
    exact ⟨rfl, by simp [convert_to_wigle_csv, convRun_written]⟩
  · intro rows msg h
    simp only [convertFromBytes, h]
    refine ⟨rfl, ?_, ?_⟩
    · simp [convert_to_wigle_csv, convRun_written, List.take_length]
    · simp [convert_to_wigle_csv]
  · rfl
  · simp only [convertFromBytes]
    rfl

/-- Witness for C7 (amended): a lone invalid byte decodes to empty text
and converts successfully; the same call on the anomaly-free encoding of
that text is identical; a decoded NUL fails with the reader's message. -/
theorem claim_c7_witness :
    (convertFromBytes "x.log" none (fun _ => 0) [255]).result =
      some "x.wigle.csv" ∧
    convertFromBytes "x.log" none (fun _ => 0) [] =
      convertFromBytes "x.log" none (fun _ => 0) [255] ∧
    errLine nulMsg ∈ (convertFromBytes "x.log" none (fun _ => 0) [0]).console := by
  have h := claim_c7 "x.log" none (fun _ => 0) [255]
  have h0 := claim_c7 "x.log" none (fun _ => 0) [0]
  refine ⟨?_, h.1 [] (by decide), ((h0.2.2.1 [] nulMsg (by decide)).2.2)⟩
  have h2 := (h.2.1 [] (by decide)).1
  rw [h2]
  decide
